import Mathlib

/-!
Verification of the credential and session-token subsystem of the
six-cities web API: password hashing (src/utils/password.ts), the
hand-rolled compact HMAC bearer-token codec (src/utils/token.ts, the
variant kept in src/controllers/comment.ts lines 176-224), the
authentication gate (src/middlewares/auth-middleware.ts), the exception
filter (src/errors/exception-filter.ts, kept in
src/middlewares/document-exists.ts lines 43-100) and the secret wiring of
the controllers (src/controllers/auth.ts, src/controllers/comment.ts,
src/config/service.ts).

JavaScript strings are modelled as `List Char` (sequences of Unicode
scalar values); machine integers as `Int`/`Nat`.  The external
cryptographic primitives (`createHmac(...).digest('base64url')` and
`scryptSync`) are pure deterministic functions of their inputs and are
passed as explicit function parameters; everything else (base64url,
UTF-8, the JSON serialization of the token payload, hex) is modelled
concretely and executably.
-/

namespace SixCities

/-- The `.x7b` character (opening curly bracket), kept out of string
literals. -/
def lbrace : Char := Char.ofNat 123

/-- The closing curly bracket character. -/
def rbrace : Char := Char.ofNat 125

/-- Model of JavaScript `string.split(sep)` for a single-character
separator: splits on every occurrence of `sep`, keeping empty segments,
and always returns at least one segment. -/
def splitOnChar (sep : Char) : List Char → List (List Char)
  | [] => [[]]
  | c :: rest =>
    let r := splitOnChar sep rest
    if c = sep then [] :: r
    else
      match r with
      | [] => [[c]]
      | g :: gs => (c :: g) :: gs

theorem splitOnChar_ne_nil (sep : Char) (l : List Char) :
    splitOnChar sep l ≠ [] := by
  induction l with
  | nil => simp [splitOnChar]
  | cons c rest ih =>
    simp only [splitOnChar]
    by_cases h : c = sep
    · simp [h]
    · simp only [h, if_false]
      cases hr : splitOnChar sep rest with
      | nil => simp
      | cons g gs => simp

theorem splitOnChar_of_not_mem {sep : Char} {l : List Char}
    (h : sep ∉ l) : splitOnChar sep l = [l] := by
  induction l with
  | nil => rfl
  | cons c rest ih =>
    simp only [List.mem_cons, not_or] at h
    have hc : c ≠ sep := fun hh => h.1 hh.symm
    simp only [splitOnChar, hc, if_false]
    rw [ih h.2]

theorem splitOnChar_append {sep : Char} {a b : List Char}
    (ha : sep ∉ a) :
    splitOnChar sep (a ++ sep :: b) = a :: splitOnChar sep b := by
  induction a with
  | nil => simp [splitOnChar]
  | cons c rest ih =>
    simp only [List.mem_cons, not_or] at ha
    have hc : c ≠ sep := fun hh => ha.1 hh.symm
    simp only [List.cons_append, splitOnChar, hc, if_false, List.append_eq]
    rw [ih ha.2]

theorem splitOnChar_pair {sep : Char} {a b : List Char}
    (ha : sep ∉ a) (hb : sep ∉ b) :
    splitOnChar sep (a ++ sep :: b) = [a, b] := by
  rw [splitOnChar_append ha, splitOnChar_of_not_mem hb]

/-! ### Character arithmetic helpers -/

theorem toNat_ofNat_of_valid {n : Nat} (h : Nat.isValidChar n) :
    (Char.ofNat n).toNat = n := by
  simp [Char.ofNat, h, Char.toNat, Char.ofNatAux, UInt32.toNat, BitVec.toNat_ofNatLt]

theorem char_valid_nat (c : Char) :
    c.toNat < 55296 ∨ (57343 < c.toNat ∧ c.toNat < 1114112) := by
  have h := c.valid
  unfold UInt32.isValidChar at h
  rcases h with h | ⟨h1, h2⟩
  · left
    simpa [UInt32.lt_def, BitVec.lt_def, Char.toNat, UInt32.toNat] using h
  · right
    constructor
    · simpa [UInt32.lt_def, BitVec.lt_def, Char.toNat, UInt32.toNat] using h1
    · simpa [UInt32.lt_def, BitVec.lt_def, Char.toNat, UInt32.toNat] using h2

theorem ofNat_ne_of_toNat_ne {n : Nat} {c : Char} (hv : n < 55296)
    (hne : n ≠ c.toNat) : Char.ofNat n ≠ c := by
  intro he
  apply hne
  have := toNat_ofNat_of_valid (Or.inl hv)
  rw [he] at this
  exact this.symm

/-! ### Hex digits (Buffer 'hex' encoding, JSON unicode escapes) -/

/-- Lowercase hex digit, as produced by `Buffer.toString('hex')` and by
`JSON.stringify` in `\u00xx` escapes. -/
def hexDigit (d : Nat) : Char :=
  if d < 10 then Char.ofNat (48 + d) else Char.ofNat (87 + d)

/-- Value of a hex digit character (either case), `none` for a
non-hex-digit. -/
def hexVal (c : Char) : Option Nat :=
  let n := c.toNat
  if 48 ≤ n ∧ n ≤ 57 then some (n - 48)
  else if 97 ≤ n ∧ n ≤ 102 then some (n - 87)
  else if 65 ≤ n ∧ n ≤ 70 then some (n - 55)
  else none

theorem hexVal_hexDigit {d : Nat} (h : d < 16) :
    hexVal (hexDigit d) = some d := by
  unfold hexDigit hexVal
  by_cases h10 : d < 10
  · simp only [h10, if_true]
    rw [toNat_ofNat_of_valid (Or.inl (by omega))]
    have c1 : 48 ≤ 48 + d ∧ 48 + d ≤ 57 := by omega
    simp [c1]
  · simp only [h10, if_false]
    rw [toNat_ofNat_of_valid (Or.inl (by omega))]
    have c1 : ¬(48 ≤ 87 + d ∧ 87 + d ≤ 57) := by omega
    have c2 : 97 ≤ 87 + d ∧ 87 + d ≤ 102 := by omega
    simp [c1, c2]

/-! ### base64url (Buffer 'base64url' encoding) -/

/-- The base64url alphabet character for a 6-bit value. -/
def b64Char (n : Nat) : Char :=
  if n < 26 then Char.ofNat (65 + n)
  else if n < 52 then Char.ofNat (97 + (n - 26))
  else if n < 62 then Char.ofNat (48 + (n - 52))
  else if n = 62 then Char.ofNat 45
  else Char.ofNat 95

/-- 6-bit value of a base64url alphabet character. -/
def b64Val (c : Char) : Option Nat :=
  let n := c.toNat
  if 65 ≤ n ∧ n ≤ 90 then some (n - 65)
  else if 97 ≤ n ∧ n ≤ 122 then some (26 + (n - 97))
  else if 48 ≤ n ∧ n ≤ 57 then some (52 + (n - 48))
  else if n = 45 then some 62
  else if n = 95 then some 63
  else none

theorem b64Val_b64Char {n : Nat} (h : n < 64) :
    b64Val (b64Char n) = some n := by
  by_cases h1 : n < 26
  · unfold b64Char b64Val
    simp only [h1, if_true]
    rw [toNat_ofNat_of_valid (Or.inl (by omega))]
    have : 65 ≤ 65 + n ∧ 65 + n ≤ 90 := by omega
    simp [this]
  · by_cases h2 : n < 52
    · unfold b64Char b64Val
      simp only [h1, h2, if_true, if_false]
      rw [toNat_ofNat_of_valid (Or.inl (by omega))]
      have c1 : ¬(65 ≤ 97 + (n - 26) ∧ 97 + (n - 26) ≤ 90) := by omega
      have c2 : 97 ≤ 97 + (n - 26) ∧ 97 + (n - 26) ≤ 122 := by omega
      simp only [c1, c2, if_true, if_false, and_true, and_self, Option.some.injEq]
      omega
    · by_cases h3 : n < 62
      · unfold b64Char b64Val
        simp only [h1, h2, h3, if_true, if_false]
        rw [toNat_ofNat_of_valid (Or.inl (by omega))]
        have c1 : ¬(65 ≤ 48 + (n - 52) ∧ 48 + (n - 52) ≤ 90) := by omega
        have c2 : ¬(97 ≤ 48 + (n - 52) ∧ 48 + (n - 52) ≤ 122) := by omega
        have c3 : 48 ≤ 48 + (n - 52) ∧ 48 + (n - 52) ≤ 57 := by omega
        simp only [c1, c2, c3, and_self, if_true, if_false, Option.some.injEq]
        omega
      · by_cases h4 : n = 62
        · subst h4
          decide
        · have h5 : n = 63 := by omega
          subst h5
          decide

theorem b64Char_ne_dot (n : Nat) : b64Char n ≠ '.' := by
  have hdot : ('.').toNat = 46 := by decide
  unfold b64Char
  split_ifs <;> (apply ofNat_ne_of_toNat_ne (by omega); rw [hdot]; omega)

theorem b64Char_ne_space (n : Nat) : b64Char n ≠ ' ' := by
  have hsp : (' ').toNat = 32 := by decide
  unfold b64Char
  split_ifs <;> (apply ofNat_ne_of_toNat_ne (by omega); rw [hsp]; omega)

/-- Model of `Buffer.toString('base64url')`: unpadded base64url encoding
of a byte sequence. -/
def base64urlEncode : List Nat → List Char
  | [] => []
  | [b0] => [b64Char (b0 / 4), b64Char (b0 % 4 * 16)]
  | [b0, b1] =>
    [b64Char (b0 / 4), b64Char (b0 % 4 * 16 + b1 / 16), b64Char (b1 % 16 * 4)]
  | b0 :: b1 :: b2 :: rest =>
    b64Char (b0 / 4) :: b64Char (b0 % 4 * 16 + b1 / 16) ::
    b64Char (b1 % 16 * 4 + b2 / 64) :: b64Char (b2 % 64) ::
    base64urlEncode rest

/-- Model of `Buffer.from(s, 'base64url')` on alphabet characters.
Modelling note: Node silently skips characters outside the alphabet and
ignores stray trailing bits; this model instead rejects them (`none`),
which agrees with Node on every string `base64urlEncode` produces. -/
def base64urlDecode : List Char → Option (List Nat)
  | [] => some []
  | [_] => some []
  | [c0, c1] =>
    match b64Val c0, b64Val c1 with
    | some v0, some v1 => some [v0 * 4 + v1 / 16]
    | _, _ => none
  | [c0, c1, c2] =>
    match b64Val c0, b64Val c1, b64Val c2 with
    | some v0, some v1, some v2 =>
      some [v0 * 4 + v1 / 16, v1 % 16 * 16 + v2 / 4]
    | _, _, _ => none
  | c0 :: c1 :: c2 :: c3 :: rest =>
    match b64Val c0, b64Val c1, b64Val c2, b64Val c3, base64urlDecode rest with
    | some v0, some v1, some v2, some v3, some bs =>
      some ((v0 * 4 + v1 / 16) :: (v1 % 16 * 16 + v2 / 4) :: (v2 % 4 * 64 + v3) :: bs)
    | _, _, _, _, _ => none

theorem base64url_roundtrip :
    ∀ bs : List Nat, (∀ b ∈ bs, b < 256) →
      base64urlDecode (base64urlEncode bs) = some bs
  | [], _ => rfl
  | [b0], h => by
    have hb0 : b0 < 256 := h b0 (by simp)
    simp only [base64urlEncode, base64urlDecode]
    rw [b64Val_b64Char (by omega), b64Val_b64Char (by omega)]
    simp only [Option.some.injEq, List.cons.injEq, and_true]
    omega
  | [b0, b1], h => by
    have hb0 : b0 < 256 := h b0 (by simp)
    have hb1 : b1 < 256 := h b1 (by simp)
    simp only [base64urlEncode, base64urlDecode]
    rw [b64Val_b64Char (by omega), b64Val_b64Char (by omega),
      b64Val_b64Char (by omega)]
    simp only [Option.some.injEq, List.cons.injEq, and_true]
    constructor
    · omega
    · omega
  | b0 :: b1 :: b2 :: rest, h => by
    have hb0 : b0 < 256 := h b0 (by simp)
    have hb1 : b1 < 256 := h b1 (by simp)
    have hb2 : b2 < 256 := h b2 (by simp)
    have ih := base64url_roundtrip rest
      (fun b hb => h b (by simp only [List.mem_cons]; tauto))
    simp only [base64urlEncode, base64urlDecode]
    rw [b64Val_b64Char (by omega), b64Val_b64Char (by omega),
      b64Val_b64Char (by omega), b64Val_b64Char (by omega), ih]
    simp only [Option.some.injEq, List.cons.injEq, and_true]
    refine ⟨by omega, by omega, by omega⟩

theorem dot_not_mem_base64urlEncode :
    ∀ bs : List Nat, '.' ∉ base64urlEncode bs
  | [] => by simp [base64urlEncode]
  | [b0] => by
    simp only [base64urlEncode, List.mem_cons, not_or]
    refine ⟨?_, ?_, by simp⟩ <;> exact fun hh => b64Char_ne_dot _ hh.symm
  | [b0, b1] => by
    simp only [base64urlEncode, List.mem_cons, not_or]
    refine ⟨?_, ?_, ?_, by simp⟩ <;> exact fun hh => b64Char_ne_dot _ hh.symm
  | b0 :: b1 :: b2 :: rest => by
    have ih := dot_not_mem_base64urlEncode rest
    simp only [base64urlEncode, List.mem_cons, not_or]
    refine ⟨?_, ?_, ?_, ?_, ih⟩ <;> exact fun hh => b64Char_ne_dot _ hh.symm

/-! ### UTF-8 (Buffer.from(s, 'utf8') / buf.toString('utf8')) -/

/-- UTF-8 encoding of one Unicode scalar value, as in
`Buffer.from(s, 'utf8')`. -/
def utf8EncodeChar (c : Char) : List Nat :=
  if c.toNat < 128 then [c.toNat]
  else if c.toNat < 2048 then [192 + c.toNat / 64, 128 + c.toNat % 64]
  else if c.toNat < 65536 then
    [224 + c.toNat / 4096, 128 + c.toNat / 64 % 64, 128 + c.toNat % 64]
  else
    [240 + c.toNat / 262144, 128 + c.toNat / 4096 % 64,
     128 + c.toNat / 64 % 64, 128 + c.toNat % 64]

/-- UTF-8 encoding of a JavaScript string (modelled as its scalar
values). -/
def utf8Encode (s : List Char) : List Nat :=
  (s.map utf8EncodeChar).flatten

/-- Decodes one UTF-8 scalar value from the front of a byte sequence,
returning it with the remaining bytes; `none` on an ill-formed or empty
prefix. -/
def utf8DecodeOne : List Nat → Option (Char × List Nat)
  | [] => none
  | b0 :: rest =>
    if b0 < 128 then some (Char.ofNat b0, rest)
    else if b0 < 224 then
      match rest with
      | b1 :: rest1 =>
        if 192 ≤ b0 ∧ 128 ≤ b1 ∧ b1 < 192 ∧ 128 ≤ (b0 - 192) * 64 + (b1 - 128) then
          some (Char.ofNat ((b0 - 192) * 64 + (b1 - 128)), rest1)
        else none
      | [] => none
    else if b0 < 240 then
      match rest with
      | b1 :: b2 :: rest2 =>
        if (128 ≤ b1 ∧ b1 < 192) ∧ (128 ≤ b2 ∧ b2 < 192) ∧
            2048 ≤ (b0 - 224) * 4096 + (b1 - 128) * 64 + (b2 - 128) ∧
            ((b0 - 224) * 4096 + (b1 - 128) * 64 + (b2 - 128) < 55296 ∨
              57344 ≤ (b0 - 224) * 4096 + (b1 - 128) * 64 + (b2 - 128)) then
          some (Char.ofNat ((b0 - 224) * 4096 + (b1 - 128) * 64 + (b2 - 128)), rest2)
        else none
      | _ => none
    else if b0 < 248 then
      match rest with
      | b1 :: b2 :: b3 :: rest3 =>
        if (128 ≤ b1 ∧ b1 < 192) ∧ (128 ≤ b2 ∧ b2 < 192) ∧ (128 ≤ b3 ∧ b3 < 192) ∧
            65536 ≤ (b0 - 240) * 262144 + (b1 - 128) * 4096 + (b2 - 128) * 64 + (b3 - 128) ∧
            (b0 - 240) * 262144 + (b1 - 128) * 4096 + (b2 - 128) * 64 + (b3 - 128) < 1114112 then
          some (Char.ofNat ((b0 - 240) * 262144 + (b1 - 128) * 4096 + (b2 - 128) * 64 + (b3 - 128)),
            rest3)
        else none
      | _ => none
    else none

theorem utf8DecodeOne_length : ∀ {bs : List Nat} {c : Char} {rest : List Nat},
    utf8DecodeOne bs = some (c, rest) → rest.length < bs.length := by
  intro bs c rest h
  match bs with
  | [] => simp [utf8DecodeOne] at h
  | b0 :: tail =>
    simp only [utf8DecodeOne] at h
    split_ifs at h with h1 h2 h3 h4
    · simp only [Option.some.injEq, Prod.mk.injEq] at h
      simp [← h.2]
    · match tail with
      | [] => simp at h
      | b1 :: rest1 =>
        simp only at h
        split_ifs at h
        simp only [Option.some.injEq, Prod.mk.injEq] at h
        simp [← h.2]
        omega
    · match tail with
      | [] => simp at h
      | [b1] => simp at h
      | b1 :: b2 :: rest2 =>
        simp only at h
        split_ifs at h
        simp only [Option.some.injEq, Prod.mk.injEq] at h
        simp [← h.2]
        omega
    · match tail with
      | [] => simp at h
      | [b1] => simp at h
      | [b1, b2] => simp at h
      | b1 :: b2 :: b3 :: rest3 =>
        simp only at h
        split_ifs at h
        simp only [Option.some.injEq, Prod.mk.injEq] at h
        simp [← h.2]
        omega

/-- Model of `buf.toString('utf8')` as a strict UTF-8 decoder
(well-founded form, equal to `utf8Decode`).
Modelling note: Node substitutes U+FFFD for ill-formed subsequences
instead of failing; this model rejects them (`none`). The two agree on
every byte sequence `utf8Encode` produces. -/
def utf8DecodeRec (bs : List Nat) : Option (List Char) :=
  match h : utf8DecodeOne bs with
  | none => if bs.isEmpty then some [] else none
  | some (c, rest) => (utf8DecodeRec rest).map (fun s => c :: s)
termination_by bs.length
decreasing_by
  exact utf8DecodeOne_length h

/-- Fuel-driven form of the decoder (structurally recursive, so concrete
tokens evaluate inside the kernel). -/
def utf8DecodeAux : Nat → List Nat → Option (List Char)
  | 0, _ => none
  | fuel + 1, bs =>
    match utf8DecodeOne bs with
    | none => if bs.isEmpty then some [] else none
    | some (c, rest) => (utf8DecodeAux fuel rest).map (fun s => c :: s)

/-- Model of `buf.toString('utf8')`, executable form of
`utf8DecodeRec`. -/
def utf8Decode (bs : List Nat) : Option (List Char) :=
  utf8DecodeAux (bs.length + 1) bs

theorem utf8DecodeAux_eq_rec :
    ∀ (fuel : Nat) (bs : List Nat), bs.length < fuel →
      utf8DecodeAux fuel bs = utf8DecodeRec bs := by
  intro fuel
  induction fuel with
  | zero => intro bs h; omega
  | succ f ih =>
    intro bs h
    rw [utf8DecodeAux, utf8DecodeRec.eq_def]
    cases hone : utf8DecodeOne bs with
    | none => rfl
    | some pr =>
      obtain ⟨c, rest⟩ := pr
      have hlen := utf8DecodeOne_length hone
      show (utf8DecodeAux f rest).map (fun s => c :: s)
          = (utf8DecodeRec rest).map (fun s => c :: s)
      rw [ih rest (by omega)]

theorem utf8Decode_eq_rec (bs : List Nat) : utf8Decode bs = utf8DecodeRec bs :=
  utf8DecodeAux_eq_rec _ _ (by omega)

theorem utf8EncodeChar_lt_256 (c : Char) : ∀ b ∈ utf8EncodeChar c, b < 256 := by
  have hv := char_valid_nat c
  intro b hb
  unfold utf8EncodeChar at hb
  split_ifs at hb <;> simp only [List.mem_cons, List.not_mem_nil, or_false] at hb <;>
    omega

theorem utf8Encode_lt_256 (s : List Char) : ∀ b ∈ utf8Encode s, b < 256 := by
  intro b hb
  unfold utf8Encode at hb
  rw [List.mem_flatten] at hb
  obtain ⟨l, hl, hbl⟩ := hb
  rw [List.mem_map] at hl
  obtain ⟨c, _, hc⟩ := hl
  exact utf8EncodeChar_lt_256 c b (hc ▸ hbl)

theorem utf8DecodeOne_encodeChar (c : Char) (bs : List Nat) :
    utf8DecodeOne (utf8EncodeChar c ++ bs) = some (c, bs) := by
  have hv := char_valid_nat c
  unfold utf8EncodeChar
  by_cases h1 : c.toNat < 128
  · simp only [h1, if_true, List.cons_append, List.nil_append]
    unfold utf8DecodeOne
    simp only [h1, if_true, Char.ofNat_toNat]
  · by_cases h2 : c.toNat < 2048
    · simp only [h1, h2, if_true, if_false, List.cons_append, List.nil_append]
      unfold utf8DecodeOne
      have g1 : ¬(192 + c.toNat / 64 < 128) := by omega
      have g2 : 192 + c.toNat / 64 < 224 := by omega
      have g3 : 192 ≤ 192 + c.toNat / 64 ∧ 128 ≤ 128 + c.toNat % 64 ∧
          128 + c.toNat % 64 < 192 ∧
          128 ≤ (192 + c.toNat / 64 - 192) * 64 + (128 + c.toNat % 64 - 128) := by
        omega
      have g4 : (192 + c.toNat / 64 - 192) * 64 + (128 + c.toNat % 64 - 128)
          = c.toNat := by omega
      simp only [g1, g2, g3, g4, if_true, if_false, and_self, Char.ofNat_toNat]
      have g6 : (128:Nat) ≤ c.toNat := by omega
      simp [g6]
    · by_cases h3 : c.toNat < 65536
      · simp only [h1, h2, h3, if_true, if_false, List.cons_append, List.nil_append]
        unfold utf8DecodeOne
        have g1 : ¬(224 + c.toNat / 4096 < 128) := by omega
        have g2 : ¬(224 + c.toNat / 4096 < 224) := by omega
        have g3 : 224 + c.toNat / 4096 < 240 := by omega
        have g4 : (224 + c.toNat / 4096 - 224) * 4096 +
            (128 + c.toNat / 64 % 64 - 128) * 64 + (128 + c.toNat % 64 - 128)
            = c.toNat := by omega
        have g5 : (128 ≤ 128 + c.toNat / 64 % 64 ∧ 128 + c.toNat / 64 % 64 < 192) ∧
            (128 ≤ 128 + c.toNat % 64 ∧ 128 + c.toNat % 64 < 192) ∧
            2048 ≤ (224 + c.toNat / 4096 - 224) * 4096 +
              (128 + c.toNat / 64 % 64 - 128) * 64 + (128 + c.toNat % 64 - 128) ∧
            ((224 + c.toNat / 4096 - 224) * 4096 +
              (128 + c.toNat / 64 % 64 - 128) * 64 + (128 + c.toNat % 64 - 128) < 55296 ∨
              57344 ≤ (224 + c.toNat / 4096 - 224) * 4096 +
              (128 + c.toNat / 64 % 64 - 128) * 64 + (128 + c.toNat % 64 - 128)) := by
          omega
        simp only [g1, g2, g3, g4, g5, if_true, if_false, and_self, Char.ofNat_toNat]
        have g7 : 2048 ≤ c.toNat ∧ (c.toNat < 55296 ∨ 57344 ≤ c.toNat) := by omega
        simp [g7]
      · simp only [h1, h2, h3, if_false, List.cons_append, List.nil_append]
        unfold utf8DecodeOne
        have g1 : ¬(240 + c.toNat / 262144 < 128) := by omega
        have g2 : ¬(240 + c.toNat / 262144 < 224) := by omega
        have g3 : ¬(240 + c.toNat / 262144 < 240) := by omega
        have g4 : 240 + c.toNat / 262144 < 248 := by omega
        have g6 : (240 + c.toNat / 262144 - 240) * 262144 +
            (128 + c.toNat / 4096 % 64 - 128) * 4096 +
            (128 + c.toNat / 64 % 64 - 128) * 64 + (128 + c.toNat % 64 - 128)
            = c.toNat := by omega
        have g5 : (128 ≤ 128 + c.toNat / 4096 % 64 ∧ 128 + c.toNat / 4096 % 64 < 192) ∧
            (128 ≤ 128 + c.toNat / 64 % 64 ∧ 128 + c.toNat / 64 % 64 < 192) ∧
            (128 ≤ 128 + c.toNat % 64 ∧ 128 + c.toNat % 64 < 192) ∧
            65536 ≤ (240 + c.toNat / 262144 - 240) * 262144 +
              (128 + c.toNat / 4096 % 64 - 128) * 4096 +
              (128 + c.toNat / 64 % 64 - 128) * 64 + (128 + c.toNat % 64 - 128) ∧
            (240 + c.toNat / 262144 - 240) * 262144 +
              (128 + c.toNat / 4096 % 64 - 128) * 4096 +
              (128 + c.toNat / 64 % 64 - 128) * 64 + (128 + c.toNat % 64 - 128)
              < 1114112 := by omega
        simp only [g1, g2, g3, g4, g5, g6, if_true, if_false, and_self, Char.ofNat_toNat]
        have g8 : 65536 ≤ c.toNat ∧ c.toNat < 1114112 := by omega
        simp [g8]

theorem utf8DecodeRec_encodeChar_append (c : Char) (bs : List Nat) :
    utf8DecodeRec (utf8EncodeChar c ++ bs) =
      (utf8DecodeRec bs).map (fun s => c :: s) := by
  rw [utf8DecodeRec.eq_def]
  rw [utf8DecodeOne_encodeChar]

theorem utf8DecodeRec_encode (s : List Char) :
    utf8DecodeRec (utf8Encode s) = some s := by
  induction s with
  | nil =>
    show utf8DecodeRec [] = some []
    rw [utf8DecodeRec.eq_def]
    rfl
  | cons c rest ih =>
    show utf8DecodeRec (utf8EncodeChar c ++ utf8Encode rest) = _
    rw [utf8DecodeRec_encodeChar_append, ih]
    rfl

theorem utf8Decode_encode (s : List Char) :
    utf8Decode (utf8Encode s) = some s := by
  rw [utf8Decode_eq_rec]
  exact utf8DecodeRec_encode s

theorem utf8Encode_injective {a b : List Char}
    (h : utf8Encode a = utf8Encode b) : a = b := by
  have ha := utf8DecodeRec_encode a
  have hb := utf8DecodeRec_encode b
  rw [h, hb] at ha
  exact (Option.some.injEq _ _).mp ha.symm

/-! ### Decimal numerals (JSON.stringify / JSON.parse of the integer exp) -/

/-- The decimal digit character for `d < 10`. -/
def digitChar (d : Nat) : Char := Char.ofNat (48 + d)

/-- Decimal digit test on scalar values. -/
def isDigitChar (c : Char) : Bool := decide (48 ≤ c.toNat ∧ c.toNat ≤ 57)

theorem isDigitChar_digitChar {d : Nat} (h : d < 10) :
    isDigitChar (digitChar d) = true := by
  unfold isDigitChar digitChar
  rw [toNat_ofNat_of_valid (Or.inl (by omega))]
  simp
  omega

/-- Recursive decimal rendering used for reasoning (well-founded form,
equal to `natToChars`). -/
def natToCharsRec (n : Nat) : List Char :=
  if n < 10 then [digitChar n]
  else natToCharsRec (n / 10) ++ [digitChar (n % 10)]
termination_by n
decreasing_by
  exact Nat.div_lt_self (by omega) (by omega)

/-- Fuel-driven decimal rendering (structurally recursive, so concrete
tokens evaluate inside the kernel). -/
def natToCharsAux : Nat → Nat → List Char → List Char
  | 0, _, acc => acc
  | fuel + 1, n, acc =>
    if n < 10 then digitChar n :: acc
    else natToCharsAux fuel (n / 10) (digitChar (n % 10) :: acc)

/-- Decimal rendering of a natural number, as `JSON.stringify` renders an
integer. -/
def natToChars (n : Nat) : List Char := natToCharsAux (n + 1) n []

theorem natToCharsAux_eq_rec :
    ∀ (fuel n : Nat) (acc : List Char), n < fuel →
      natToCharsAux fuel n acc = natToCharsRec n ++ acc := by
  intro fuel
  induction fuel with
  | zero => intro n acc h; omega
  | succ f ih =>
    intro n acc h
    rw [natToCharsAux]
    split_ifs with h10
    · rw [natToCharsRec]
      simp [h10]
    · rw [ih (n / 10) _ (by omega)]
      conv_rhs => rw [natToCharsRec]
      simp [h10]

theorem natToChars_eq_rec (n : Nat) : natToChars n = natToCharsRec n := by
  unfold natToChars
  rw [natToCharsAux_eq_rec _ _ _ (by omega)]
  simp

/-- Decimal rendering of an integer. -/
def intToChars (i : Int) : List Char :=
  if i < 0 then '-' :: natToChars (-i).toNat else natToChars i.toNat

theorem natToCharsRec_ne_nil (n : Nat) : natToCharsRec n ≠ [] := by
  rw [natToCharsRec]
  split_ifs <;> simp

theorem natToCharsRec_all_digits (n : Nat) :
    ∀ c ∈ natToCharsRec n, isDigitChar c = true := by
  induction n using Nat.strong_induction_on with
  | _ n ih =>
    rw [natToCharsRec]
    split_ifs with h
    · intro c hc
      simp only [List.mem_singleton] at hc
      subst hc
      exact isDigitChar_digitChar h
    · intro c hc
      rw [List.mem_append] at hc
      rcases hc with hc | hc
      · exact ih (n / 10) (Nat.div_lt_self (by omega) (by omega)) c hc
      · simp only [List.mem_singleton] at hc
        subst hc
        exact isDigitChar_digitChar (Nat.mod_lt _ (by omega))

/-- Value of a digit string, as accumulated by a decimal parser. -/
def valNat (cs : List Char) : Nat :=
  cs.foldl (fun a c => a * 10 + (c.toNat - 48)) 0

theorem valNat_append_singleton (cs : List Char) (c : Char) :
    valNat (cs ++ [c]) = valNat cs * 10 + (c.toNat - 48) := by
  unfold valNat
  rw [List.foldl_append]
  rfl

theorem valNat_natToCharsRec (n : Nat) : valNat (natToCharsRec n) = n := by
  induction n using Nat.strong_induction_on with
  | _ n ih =>
    rw [natToCharsRec]
    split_ifs with h
    · unfold valNat digitChar
      simp only [List.foldl_cons, List.foldl_nil]
      rw [toNat_ofNat_of_valid (Or.inl (by omega))]
      omega
    · rw [valNat_append_singleton, ih (n / 10) (Nat.div_lt_self (by omega) (by omega))]
      unfold digitChar
      rw [toNat_ofNat_of_valid (Or.inl (by omega))]
      omega

/-- Longest digit prefix of a character sequence (used by the decimal
parser). -/
def spanDigits : List Char → List Char × List Char
  | [] => ([], [])
  | c :: rest =>
    if isDigitChar c then
      ((spanDigits rest).1.cons c, (spanDigits rest).2)
    else ([], c :: rest)

theorem spanDigits_append {ds rest : List Char}
    (hds : ∀ c ∈ ds, isDigitChar c = true)
    (hrest : ∀ c, rest.head? = some c → isDigitChar c = false) :
    spanDigits (ds ++ rest) = (ds, rest) := by
  induction ds with
  | nil =>
    simp only [List.nil_append]
    cases rest with
    | nil => rfl
    | cons c tail =>
      have hc := hrest c rfl
      unfold spanDigits
      simp [hc]
  | cons d tail ih =>
    have hd := hds d (by simp)
    have htail : ∀ c ∈ tail, isDigitChar c = true := fun c hc => hds c (by simp [hc])
    simp only [List.cons_append]
    unfold spanDigits
    simp [hd, ih htail]

/-- Parses a (possibly negative) decimal integer prefix, as `JSON.parse`
reads the `exp` number of the token payload profile. -/
def parseIntLit (cs : List Char) : Option (Int × List Char) :=
  if cs.head? = some '-' then
    match spanDigits cs.tail with
    | ([], _) => none
    | (ds, r) => some (-(valNat ds : Int), r)
  else
    match spanDigits cs with
    | ([], _) => none
    | (ds, r) => some ((valNat ds : Int), r)

/-- Consumes an expected literal prefix. -/
def dropPre : List Char → List Char → Option (List Char)
  | [], cs => some cs
  | _ :: _, [] => none
  | p :: ps, c :: cs => if c = p then dropPre ps cs else none

theorem dropPre_append (p rest : List Char) : dropPre p (p ++ rest) = some rest := by
  induction p with
  | nil => rfl
  | cons c ps ih =>
    simp only [List.cons_append]
    unfold dropPre
    simp [ih]

theorem head_natToCharsRec_digit {n : Nat} {c : Char} {t : List Char}
    (h : natToCharsRec n = c :: t) : isDigitChar c = true :=
  natToCharsRec_all_digits n c (by rw [h]; simp)

theorem parseIntLit_intToChars (i : Int) {rest : List Char}
    (hrest : ∀ c, rest.head? = some c → isDigitChar c = false) :
    parseIntLit (intToChars i ++ rest) = some (i, rest) := by
  unfold intToChars
  simp only [natToChars_eq_rec]
  by_cases hi : i < 0
  · simp only [hi, if_true, List.cons_append]
    have hspan : spanDigits (natToCharsRec (-i).toNat ++ rest) = (natToCharsRec (-i).toNat, rest) :=
      spanDigits_append (natToCharsRec_all_digits _) hrest
    cases hds : natToCharsRec (-i).toNat with
    | nil => exact absurd hds (natToCharsRec_ne_nil _)
    | cons d dt =>
      rw [hds] at hspan
      simp only [List.cons_append] at hspan
      unfold parseIntLit
      simp only [List.head?_cons, List.tail_cons, List.cons_append, Option.some.injEq,
        if_true, reduceIte, hspan]
      have hval : valNat (d :: dt) = (-i).toNat := by
        rw [← hds]
        exact valNat_natToCharsRec _
      rw [hval]
      simp only [Option.some.injEq, Prod.mk.injEq, and_true]
      omega
  · simp only [hi, if_false]
    have hspan : spanDigits (natToCharsRec i.toNat ++ rest) = (natToCharsRec i.toNat, rest) :=
      spanDigits_append (natToCharsRec_all_digits _) hrest
    cases hds : natToCharsRec i.toNat with
    | nil => exact absurd hds (natToCharsRec_ne_nil _)
    | cons d dt =>
      rw [hds] at hspan
      simp only [List.cons_append] at hspan ⊢
      have hd : isDigitChar d = true := head_natToCharsRec_digit hds
      have hdne : ¬(d = '-') := by
        intro he
        subst he
        unfold isDigitChar at hd
        have h45 : ('-').toNat = 45 := by decide
        rw [h45] at hd
        simp at hd
      unfold parseIntLit
      simp only [List.head?_cons, Option.some.injEq, hdne, if_false, hspan]
      have hval : valNat (d :: dt) = i.toNat := by
        rw [← hds]
        exact valNat_natToCharsRec _
      rw [hval]
      simp only [Option.some.injEq, Prod.mk.injEq, and_true]
      omega

/-! ### JSON string literals (JSON.stringify escaping / JSON.parse) -/

/-- One-character escape of `JSON.stringify`: quote, backslash, and the
named control escapes; other control characters go through `\u00xx`. -/
def jsonEscapeChar (c : Char) : List Char :=
  if c = '"' then ['\\', '"']
  else if c = '\\' then ['\\', '\\']
  else if c.toNat = 8 then ['\\', 'b']
  else if c.toNat = 9 then ['\\', 't']
  else if c.toNat = 10 then ['\\', 'n']
  else if c.toNat = 12 then ['\\', 'f']
  else if c.toNat = 13 then ['\\', 'r']
  else if c.toNat < 32 then
    ['\\', 'u', '0', '0', hexDigit (c.toNat / 16), hexDigit (c.toNat % 16)]
  else [c]

/-- Escaped body of a JSON string literal. -/
def escapeStr (s : List Char) : List Char := (s.map jsonEscapeChar).flatten

/-- A JSON string literal as `JSON.stringify` prints it. -/
def jsonStrLit (s : List Char) : List Char := '"' :: escapeStr s ++ ['"']

/-- Resolves a single-character JSON escape. -/
def unescape (e : Char) : Option Char :=
  if e = '"' then some '"'
  else if e = '\\' then some '\\'
  else if e = '/' then some '/'
  else if e = 'b' then some (Char.ofNat 8)
  else if e = 'f' then some (Char.ofNat 12)
  else if e = 'n' then some (Char.ofNat 10)
  else if e = 'r' then some (Char.ofNat 13)
  else if e = 't' then some (Char.ofNat 9)
  else none

/-- Reads one logical character (raw or escape) from inside a JSON
string literal; `none` at the closing quote, on a raw control character
or on an invalid escape.
Modelling note: a `\uXXXX` escape is mapped through `Char.ofNat`;
surrogate-pair recombination of JavaScript strings is not modelled (the
token payloads this development evaluates never contain one). -/
def strCharOne : List Char → Option (Char × List Char)
  | [] => none
  | c :: rest =>
    if c = '"' then none
    else if c = '\\' then
      match rest with
      | [] => none
      | e :: rest1 =>
        if e = 'u' then
          match rest1 with
          | h1 :: h2 :: h3 :: h4 :: rest2 =>
            match hexVal h1, hexVal h2, hexVal h3, hexVal h4 with
            | some a, some b, some c2, some d =>
              some (Char.ofNat (4096 * a + 256 * b + 16 * c2 + d), rest2)
            | _, _, _, _ => none
          | _ => none
        else (unescape e).map (fun ch => (ch, rest1))
    else if c.toNat < 32 then none
    else some (c, rest)

theorem strCharOne_length : ∀ {cs : List Char} {c : Char} {rest : List Char},
    strCharOne cs = some (c, rest) → rest.length < cs.length := by
  intro cs c rest h
  match cs with
  | [] => simp [strCharOne] at h
  | c0 :: tail =>
    simp only [strCharOne] at h
    split_ifs at h with h1 h2 h3
    · match tail with
      | [] => simp at h
      | e :: rest1 =>
        simp only at h
        split_ifs at h with h4
        · match rest1 with
          | [] => exact Option.noConfusion h
          | [x1] => exact Option.noConfusion h
          | [x1, x2] => exact Option.noConfusion h
          | [x1, x2, x3] => exact Option.noConfusion h
          | x1 :: x2 :: x3 :: x4 :: rest2 =>
            simp only at h
            match hv1 : hexVal x1 with
            | none =>
              rw [hv1] at h
              exact Option.noConfusion h
            | some a =>
              match hv2 : hexVal x2 with
              | none =>
                rw [hv1, hv2] at h
                exact Option.noConfusion h
              | some b =>
                match hv3 : hexVal x3 with
                | none =>
                  rw [hv1, hv2, hv3] at h
                  exact Option.noConfusion h
                | some c2 =>
                  match hv4 : hexVal x4 with
                  | none =>
                    rw [hv1, hv2, hv3, hv4] at h
                    exact Option.noConfusion h
                  | some d =>
                    rw [hv1, hv2, hv3, hv4] at h
                    simp only [Option.some.injEq, Prod.mk.injEq] at h
                    rw [← h.2]
                    simp
                    omega
        · match hu : unescape e with
          | some ch =>
            rw [hu] at h
            simp only [Option.map_some', Option.some.injEq, Prod.mk.injEq] at h
            rw [← h.2]
            simp only [List.length_cons]
            omega
          | none =>
            rw [hu] at h
            simp at h
    · simp only [Option.some.injEq, Prod.mk.injEq] at h
      simp [← h.2]

/-- Parses the body of a JSON string literal up to its closing quote,
returning the decoded characters and the remaining input (well-founded
form, equal to `parseStrBody`). -/
def parseStrBodyRec (cs : List Char) : Option (List Char × List Char) :=
  if cs.head? = some '"' then some ([], cs.tail)
  else
    match h : strCharOne cs with
    | none => none
    | some (c, rest) => (parseStrBodyRec rest).map (fun p => (c :: p.1, p.2))
termination_by cs.length
decreasing_by
  exact strCharOne_length h

/-- Fuel-driven form of the string-literal body parser (structurally
recursive, so concrete tokens evaluate inside the kernel). -/
def parseStrBodyAux : Nat → List Char → Option (List Char × List Char)
  | 0, _ => none
  | fuel + 1, cs =>
    if cs.head? = some '"' then some ([], cs.tail)
    else
      match strCharOne cs with
      | none => none
      | some (c, rest) => (parseStrBodyAux fuel rest).map (fun p => (c :: p.1, p.2))

/-- Executable form of `parseStrBodyRec`. -/
def parseStrBody (cs : List Char) : Option (List Char × List Char) :=
  parseStrBodyAux (cs.length + 1) cs

theorem parseStrBodyAux_eq_rec :
    ∀ (fuel : Nat) (cs : List Char), cs.length < fuel →
      parseStrBodyAux fuel cs = parseStrBodyRec cs := by
  intro fuel
  induction fuel with
  | zero => intro cs h; omega
  | succ f ih =>
    intro cs h
    rw [parseStrBodyAux, parseStrBodyRec.eq_def]
    by_cases hq : cs.head? = some '"'
    · simp [hq]
    · simp only [hq, if_false]
      cases hone : strCharOne cs with
      | none => rfl
      | some pr =>
        obtain ⟨c, rest⟩ := pr
        have hlen := strCharOne_length hone
        show (parseStrBodyAux f rest).map (fun p => (c :: p.1, p.2))
            = (parseStrBodyRec rest).map (fun p => (c :: p.1, p.2))
        rw [ih rest (by omega)]

theorem parseStrBody_eq_rec (cs : List Char) : parseStrBody cs = parseStrBodyRec cs :=
  parseStrBodyAux_eq_rec _ _ (by omega)

/-- Parses a complete JSON string literal (opening quote included). -/
def parseStrLit (cs : List Char) : Option (List Char × List Char) :=
  match cs with
  | [] => none
  | c :: rest => if c = '"' then parseStrBody rest else none

theorem strCharOne_escape (c : Char) (tail : List Char) :
    strCharOne (jsonEscapeChar c ++ tail) = some (c, tail) := by
  unfold jsonEscapeChar
  by_cases h1 : c = '"'
  · subst h1
    rfl
  · by_cases h2 : c = '\\'
    · subst h2
      simp only [h1, if_false, reduceIte]
      rfl
    · by_cases h3 : c.toNat = 8
      · have hc : Char.ofNat 8 = c := by
          rw [← h3]
          exact Char.ofNat_toNat c
        simp only [h1, h2, h3, if_false, reduceIte]
        rw [← hc]
        rfl
      · by_cases h4 : c.toNat = 9
        · have hc : Char.ofNat 9 = c := by
            rw [← h4]
            exact Char.ofNat_toNat c
          simp only [h1, h2, h3, h4, if_false, reduceIte]
          rw [← hc]
          rfl
        · by_cases h5 : c.toNat = 10
          · have hc : Char.ofNat 10 = c := by
              rw [← h5]
              exact Char.ofNat_toNat c
            simp only [h1, h2, h3, h4, h5, if_false, reduceIte]
            rw [← hc]
            rfl
          · by_cases h6 : c.toNat = 12
            · have hc : Char.ofNat 12 = c := by
                rw [← h6]
                exact Char.ofNat_toNat c
              simp only [h1, h2, h3, h4, h5, h6, if_false, reduceIte]
              rw [← hc]
              rfl
            · by_cases h7 : c.toNat = 13
              · have hc : Char.ofNat 13 = c := by
                  rw [← h7]
                  exact Char.ofNat_toNat c
                simp only [h1, h2, h3, h4, h5, h6, h7, if_false, reduceIte]
                rw [← hc]
                rfl
              · by_cases h8 : c.toNat < 32
                · simp only [h1, h2, h3, h4, h5, h6, h7, h8, if_true, if_false,
                    reduceIte, List.cons_append]
                  have f1 : ¬('\\' = '"') := by decide
                  have f2 : ('\\' = '\\') := rfl
                  have f3 : ('u' = 'u') := rfl
                  have e0 : hexVal '0' = some 0 := rfl
                  have e1 : hexVal (hexDigit (c.toNat / 16)) = some (c.toNat / 16) :=
                    hexVal_hexDigit (by omega)
                  have e2 : hexVal (hexDigit (c.toNat % 16)) = some (c.toNat % 16) :=
                    hexVal_hexDigit (by omega)
                  simp only [strCharOne, f1, f2, f3, if_true, if_false, reduceIte,
                    e0, e1, e2]
                  have hn : 4096 * 0 + 256 * 0 + 16 * (c.toNat / 16) + c.toNat % 16
                      = c.toNat := by omega
                  rw [hn, Char.ofNat_toNat]
                  simp
                · simp only [h1, h2, h3, h4, h5, h6, h7, h8, if_false, reduceIte,
                    List.cons_append, List.nil_append]
                  unfold strCharOne
                  simp only [h1, h2, h8, if_false, reduceIte]

theorem jsonEscapeChar_head_ne (c : Char) (tail : List Char) :
    ¬((jsonEscapeChar c ++ tail).head? = some '"') := by
  unfold jsonEscapeChar
  by_cases h1 : c = '"'
  · subst h1
    simp
  · by_cases h2 : c = '\\'
    · subst h2
      simp [h1]
    · split_ifs <;> simp_all

theorem parseStrBodyRec_escape (s : List Char) (rest : List Char) :
    parseStrBodyRec (escapeStr s ++ '"' :: rest) = some (s, rest) := by
  induction s with
  | nil =>
    rw [parseStrBodyRec.eq_def]
    simp [escapeStr]
  | cons c s' ih =>
    have hesc : escapeStr (c :: s') = jsonEscapeChar c ++ escapeStr s' := by
      unfold escapeStr
      simp
    rw [hesc, List.append_assoc, parseStrBodyRec.eq_def]
    rw [if_neg (jsonEscapeChar_head_ne c _)]
    rw [strCharOne_escape]
    simp only [ih, Option.map_some']

theorem parseStrBody_escape (s : List Char) (rest : List Char) :
    parseStrBody (escapeStr s ++ '"' :: rest) = some (s, rest) := by
  rw [parseStrBody_eq_rec]
  exact parseStrBodyRec_escape s rest

theorem parseStrLit_append (s rest : List Char) :
    parseStrLit (jsonStrLit s ++ rest) = some (s, rest) := by
  unfold jsonStrLit parseStrLit
  simp only [List.cons_append, List.append_assoc, List.singleton_append, reduceIte]
  exact parseStrBody_escape s rest

/-! ### The token payload JSON profile -/

/-- Leading characters of the payload serialization up to the `userId`
value. -/
def keyPrefixUserId : List Char := [lbrace, '"'] ++ "userId".data ++ ['"', ':']

/-- Characters between the `userId` value and the `email` value. -/
def keyPrefixEmail : List Char := [',', '"'] ++ "email".data ++ ['"', ':']

/-- Characters between the `email` value and the `exp` value. -/
def keyPrefixExp : List Char := [',', '"'] ++ "exp".data ++ ['"', ':']

/-- `JSON.stringify({ userId, email, exp })` as `signToken` builds it:
keys exactly `userId`, `email`, `exp`, in this order, no whitespace. -/
def payloadJson (userId email : List Char) (exp : Int) : List Char :=
  keyPrefixUserId ++ jsonStrLit userId ++ keyPrefixEmail ++ jsonStrLit email ++
    keyPrefixExp ++ intToChars exp ++ [rbrace]

/-- Model of `JSON.parse` restricted to the exact serialization shape the
token issuer produces (an object with string values under keys `userId`
and `email` and an integer under `exp`, in this order, no whitespace).
Modelling note: `JSON.parse` also accepts non-canonical spellings
(whitespace, reordered keys, other value types); those are not
modelled. -/
def parsePayloadFields (cs1 : List Char) : Option (List Char × List Char × Int) :=
  match parseStrLit cs1 with
  | none => none
  | some (uid, cs2) =>
    match dropPre keyPrefixEmail cs2 with
    | none => none
    | some cs3 =>
      match parseStrLit cs3 with
      | none => none
      | some (em, cs4) =>
        match dropPre keyPrefixExp cs4 with
        | none => none
        | some cs5 =>
          match parseIntLit cs5 with
          | none => none
          | some (e, cs6) => if cs6 = [rbrace] then some (uid, em, e) else none

def parsePayload (cs : List Char) : Option (List Char × List Char × Int) :=
  match dropPre keyPrefixUserId cs with
  | none => none
  | some cs1 => parsePayloadFields cs1

theorem parsePayload_payloadJson (uid em : List Char) (exp : Int) :
    parsePayload (payloadJson uid em exp) = some (uid, em, exp) := by
  have hbr : ∀ c, ([rbrace] : List Char).head? = some c → isDigitChar c = false := by
    intro c hc
    simp only [List.head?_cons, Option.some.injEq] at hc
    subst hc
    decide
  have hint := parseIntLit_intToChars exp hbr
  unfold payloadJson parsePayload parsePayloadFields
  simp only [List.append_assoc, dropPre_append, parseStrLit_append, hint, reduceIte]

/-! ### Token codec (src/utils/token.ts, hand-rolled HMAC profile) -/

/-- Model of `signToken(userId, email, secret, ttlSeconds)`
(src/controllers/comment.ts lines 176-183).  `hmac` stands for
`createHmac('sha256', secret).update(m).digest('base64url')`, a pure
deterministic function of the secret and the message; `now` stands for
`Math.floor(Date.now() / 1000)` at the call. -/
def signToken (hmac : List Char → List Char → List Char)
    (userId email secret : List Char) (ttlSeconds : Int) (now : Int) : List Char :=
  base64urlEncode (utf8Encode (payloadJson userId email (now + ttlSeconds))) ++
    '.' :: hmac secret (base64urlEncode (utf8Encode (payloadJson userId email (now + ttlSeconds))))

/-- Model of `verifyToken(token, secret)` (src/controllers/comment.ts
lines 185-224): split on `'.'` into exactly two parts, recompute the
HMAC over the payload segment, length-check and compare the UTF-8 bytes
of the two signatures (`timingSafeEqual`), then base64url-decode, UTF-8
decode and JSON-parse the payload, reject JavaScript-falsy `userId`,
`email` or `exp` (empty strings, zero), reject `exp <` current time, and
return the identity claims. -/
def verifyToken (hmac : List Char → List Char → List Char)
    (token secret : List Char) (now : Int) : Option (List Char × List Char) :=
  match splitOnChar '.' token with
  | [payloadB64, sigB64] =>
    if (utf8Encode sigB64).length ≠ (utf8Encode (hmac secret payloadB64)).length then none
    else if utf8Encode sigB64 ≠ utf8Encode (hmac secret payloadB64) then none
    else
      match base64urlDecode payloadB64 with
      | none => none
      | some bytes =>
        match utf8Decode bytes with
        | none => none
        | some payloadChars =>
          match parsePayload payloadChars with
          | none => none
          | some (userId, email, exp) =>
            if userId = [] then none
            else if email = [] then none
            else if exp = 0 then none
            else if exp < now then none
            else some (userId, email)
  | _ => none

/-! ### Credential hasher (src/utils/password.ts) -/

/-- Lowercase hex rendering of a byte sequence
(`buf.toString('hex')`). -/
def hexEncode (bs : List Nat) : List Char :=
  (bs.map (fun b => [hexDigit (b % 256 / 16), hexDigit (b % 256 % 16)])).flatten

/-- Model of `Buffer.from(s, 'hex')`: decodes pairs of hex digits,
stopping at the first invalid pair (as Node does). -/
def hexDecode : List Char → List Nat
  | c0 :: c1 :: rest =>
    match hexVal c0, hexVal c1 with
    | some hi, some lo => (hi * 16 + lo) :: hexDecode rest
    | _, _ => []
  | _ => []

/-- Model of `hashPassword(password, salt)` (src/utils/password.ts lines
3-6).  `scrypt` stands for `scryptSync(password, salt, 64)`, a pure
deterministic function of password and salt returning bytes. -/
def hashPassword (scrypt : List Char → List Char → List Nat)
    (password salt : List Char) : List Char :=
  hexEncode (scrypt password salt)

/-- Model of `verifyPassword(password, passwordHash, salt)`
(src/utils/password.ts lines 8-22): recompute the digest, hex-decode
both, compare lengths, then compare bytes (`timingSafeEqual`). -/
def verifyPassword (scrypt : List Char → List Char → List Nat)
    (password passwordHash salt : List Char) : Bool :=
  if (hexDecode passwordHash).length ≠ (hexDecode (hashPassword scrypt password salt)).length
  then false
  else hexDecode passwordHash = hexDecode (hashPassword scrypt password salt)

/-! ### Authentication gate (src/middlewares/auth-middleware.ts) -/

/-- Model of `getBearerToken(req)` (src/middlewares/auth-middleware.ts
lines 11-23): `none` when the `Authorization` header is absent or empty,
otherwise split the header on spaces, require the first segment to be
exactly `Bearer` and the second to exist and be non-empty; extra
segments are ignored. -/
def getBearerToken (header : Option (List Char)) : Option (List Char) :=
  match header with
  | none => none
  | some h =>
    if h = [] then none
    else
      if (splitOnChar ' ' h).headD [] ≠ "Bearer".data ∨
          ((splitOnChar ' ' h)[1]?).getD [] = [] then none
      else some (((splitOnChar ' ' h)[1]?).getD [])

/-- An `HttpError(statusCode, message)` (src/errors/http-error.ts). -/
structure HttpErrorModel where
  statusCode : Nat
  message : List Char
deriving DecidableEq, Repr

/-- Outcome of a middleware run: `next(error)` with an `HttpError`, or
`next()` with the request context carrying an optional authenticated
user. -/
inductive GateOutcome (α : Type) where
  | rejected (error : HttpErrorModel) : GateOutcome α
  | proceed (user : Option α) : GateOutcome α
deriving DecidableEq, Repr

/-- Model of `AuthMiddleware.execute` (src/middlewares/auth-middleware.ts
lines 28-49), the required-policy gate.  `users` models the injected
`IUserRepository.findById`; the second component of the result is the
list of subject ids the gate looked up, in order. -/
def requiredAuthExecute {α : Type} (hmac : List Char → List Char → List Char)
    (users : List Char → Option α) (secret : List Char)
    (header : Option (List Char)) (now : Int) :
    GateOutcome α × List (List Char) :=
  match getBearerToken header with
  | none => (GateOutcome.rejected ⟨401, "Unauthorized".data⟩, [])
  | some token =>
    match verifyToken hmac token secret now with
    | none => (GateOutcome.rejected ⟨401, "Invalid token".data⟩, [])
    | some (userId, _) =>
      match users userId with
      | none => (GateOutcome.rejected ⟨401, "User not found".data⟩, [userId])
      | some u => (GateOutcome.proceed (some u), [userId])

/-- Model of `OptionalAuthMiddleware.execute`
(src/middlewares/auth-middleware.ts lines 52-77), the optional-policy
gate: every failure continues the chain with no user attached. -/
def optionalAuthExecute {α : Type} (hmac : List Char → List Char → List Char)
    (users : List Char → Option α) (secret : List Char)
    (header : Option (List Char)) (now : Int) :
    GateOutcome α × List (List Char) :=
  match getBearerToken header with
  | none => (GateOutcome.proceed none, [])
  | some token =>
    match verifyToken hmac token secret now with
    | none => (GateOutcome.proceed none, [])
    | some (userId, _) =>
      match users userId with
      | none => (GateOutcome.proceed none, [userId])
      | some u => (GateOutcome.proceed (some u), [userId])

/-- Model of `ExceptionFilter.catch` on an `HttpError`
(src/errors/exception-filter.ts lines 71-81): responds with the error's
status code and the JSON body `\x7b "error": <message> \x7d`, the body
represented by the value of its only field. -/
def exceptionFilterCatch (e : HttpErrorModel) : Nat × List Char :=
  (e.statusCode, e.message)

/-! ### Secret wiring (src/config/service.ts and the controllers) -/

/-- The two secrets `ConfigService` supplies: `app.salt` (documented
"Salt for hashing passwords", env `SALT`) and `app.jwtSecret`
(documented "Secret for signing JWT", env `JWT_SECRET`). -/
structure ConfigSecrets where
  salt : List Char
  jwtSecret : List Char

/-- The secret `CommentController` hands its gate
(src/controllers/comment.ts line 42: `this.config.getSalt()`). -/
def commentControllerGateSecret (cfg : ConfigSecrets) : List Char := cfg.salt

/-- The secret `AuthController` hands its gate
(src/controllers/auth.ts line 36: `this.config.getJwtSecret()`). -/
def authControllerGateSecret (cfg : ConfigSecrets) : List Char := cfg.jwtSecret

/-- The secret `AuthController.login` signs tokens with
(src/controllers/auth.ts line 107: `this.config.getJwtSecret()`). -/
def loginSigningSecret (cfg : ConfigSecrets) : List Char := cfg.jwtSecret

/-! ### Shared facts about the codec -/

/-- Unfolds `verifyToken` on a token freshly produced by `signToken`
with the same secret: the signature comparison succeeds and the payload
round-trips, so the outcome is decided by the JavaScript-falsiness
checks and the expiry check alone. -/
theorem verifyToken_signToken (hmac : List Char → List Char → List Char)
    (uid em secret : List Char) (ttl now t : Int)
    (hsig : '.' ∉ hmac secret (base64urlEncode (utf8Encode (payloadJson uid em (now + ttl))))) :
    verifyToken hmac (signToken hmac uid em secret ttl now) secret t =
      if uid = [] then none
      else if em = [] then none
      else if now + ttl = 0 then none
      else if now + ttl < t then none
      else some (uid, em) := by
  unfold signToken verifyToken
  rw [splitOnChar_pair (dot_not_mem_base64urlEncode _) hsig]
  have hb : base64urlDecode (base64urlEncode (utf8Encode (payloadJson uid em (now + ttl))))
      = some (utf8Encode (payloadJson uid em (now + ttl))) :=
    base64url_roundtrip _ (utf8Encode_lt_256 _)
  simp [hb, utf8Decode_encode, parsePayload_payloadJson]

/-- A concrete stand-in for the HMAC-SHA256 primitive used to instantiate
the codec theorems at specific inputs: deterministic, dependent on both
key and message, and producing no `'.'` character. -/
def toyHmac (key msg : List Char) : List Char :=
  'h' :: (key ++ msg).filter (fun c => decide (c ≠ '.'))

theorem toyHmac_dot_free (key msg : List Char) : '.' ∉ toyHmac key msg := by
  unfold toyHmac
  simp only [List.mem_cons, List.mem_filter, not_or]
  refine ⟨by decide, ?_⟩
  intro hmem
  have := hmem.2
  simp at this

/-! ## Claim theorems -/

/-- C1, counterexample to the claim as stated: with an empty subjectId
string (a legal string input), verifying immediately after issuing does
NOT return the issued identity — the JavaScript-falsiness check
`!payload.userId` rejects the empty string, so the quantification over
every subjectId string fails. -/
theorem c1_claim_counterexample :
    verifyToken toyHmac (signToken toyHmac [] "a@b.com".data "secret".data 3600 1000)
      "secret".data 1000 ≠ some ([], "a@b.com".data) := by decide

/-- C1 (amended): for every NON-EMPTY subjectId and email, every secret,
every ttlSeconds > 0 and every issuance instant on or after the epoch,
verifying a token immediately after issuing it with the same secret
succeeds and returns exactly the issued subject identity and email. -/
theorem c1_sign_verify_roundtrip (hmac : List Char → List Char → List Char)
    (hsig : ∀ k m, '.' ∉ hmac k m) (uid em secret : List Char) (ttl now : Int)
    (huid : uid ≠ []) (hem : em ≠ []) (httl : 0 < ttl) (hnow : 0 ≤ now) :
    verifyToken hmac (signToken hmac uid em secret ttl now) secret now
      = some (uid, em) := by
  rw [verifyToken_signToken hmac uid em secret ttl now now (hsig _ _)]
  rw [if_neg huid, if_neg hem, if_neg (by omega), if_neg (by omega)]

/-- C1 witness: the round trip at a concrete identity, secret and
time. -/
theorem c1_sign_verify_roundtrip_witness :
    verifyToken toyHmac (signToken toyHmac "u1".data "a@b.com".data "secret".data 3600 1000)
      "secret".data 1000 = some ("u1".data, "a@b.com".data) :=
  c1_sign_verify_roundtrip toyHmac toyHmac_dot_free "u1".data "a@b.com".data
    "secret".data 3600 1000 (by decide) (by decide) (by decide) (by decide)

set_option maxRecDepth 16384 in
/-- C2 (code bug): `CommentController` builds its authentication gate
with the password-hashing salt (`this.config.getSalt()`,
src/controllers/comment.ts line 42) while the login flow signs tokens
with the dedicated JWT secret (`this.config.getJwtSecret()`,
src/controllers/auth.ts line 107).  With a configuration whose salt and
jwtSecret differ, a token freshly issued at login is rejected by the
comment-posting gate with `Invalid token` — contradicting the claim that
every gate verifies with the secret the login flow issues with. -/
theorem c2_comment_gate_rejects_login_token :
    requiredAuthExecute toyHmac (fun _ => (some 0 : Option Nat))
      (commentControllerGateSecret ⟨"pepper-salt".data, "jwt-secret".data⟩)
      (some ("Bearer ".data ++ signToken toyHmac "u1".data "a@b.com".data
        (loginSigningSecret ⟨"pepper-salt".data, "jwt-secret".data⟩) 86400 1000))
      1000
    = (GateOutcome.rejected ⟨401, "Invalid token".data⟩, []) := by decide

/-- C3, counterexample to the claim as stated: a correctly signed token
whose payload is well-formed JSON of the documented shape (subject
`"u1"`, email `""`, exp in the future) fails verification even though
`exp ≥ now` — the falsiness check on the email gates the result, so
verification success is not equivalent to non-expiry. -/
theorem c3_claim_counterexample :
    verifyToken toyHmac (signToken toyHmac "u1".data [] "k".data 50 100) "k".data 100 = none
    ∧ (100 : Int) ≤ 100 + 50 := by
  refine ⟨by decide, by decide⟩

/-- C3 (amended): for tokens whose claims are JavaScript-truthy
(non-empty subjectId and email, exp ≠ 0), verification of a freshly
signed token at time `t` succeeds exactly when `t ≤ exp` — an exp equal
to the current second verifies, with no clock-skew leeway — and a token
issued with `ttlSeconds = -1` fails verification at every time from
issuance on, whatever its subject and email. -/
theorem c3_expiry_boundary (hmac : List Char → List Char → List Char)
    (hsig : ∀ k m, '.' ∉ hmac k m) (uid em secret : List Char) (now0 ttl t : Int)
    (huid : uid ≠ []) (hem : em ≠ []) (hexp : ¬(now0 + ttl = 0)) :
    (verifyToken hmac (signToken hmac uid em secret ttl now0) secret t = some (uid, em)
        ↔ t ≤ now0 + ttl)
    ∧ (∀ uid' em' t', now0 ≤ t' →
        verifyToken hmac (signToken hmac uid' em' secret (-1) now0) secret t' = none) := by
  constructor
  · rw [verifyToken_signToken hmac uid em secret ttl now0 t (hsig _ _),
      if_neg huid, if_neg hem, if_neg hexp]
    by_cases hlt : now0 + ttl < t
    · rw [if_pos hlt]
      constructor
      · intro h
        exact absurd h (by simp)
      · intro h
        omega
    · rw [if_neg hlt]
      constructor
      · intro _
        omega
      · intro _
        rfl
  · intro uid' em' t' ht
    rw [verifyToken_signToken hmac uid' em' secret (-1) now0 t' (hsig _ _)]
    split_ifs <;> first | rfl | omega

/-- C3 witness: the boundary at concrete inputs (exp = 150, checked at
t = 150). -/
theorem c3_expiry_boundary_witness :
    (verifyToken toyHmac (signToken toyHmac "u1".data "e@x".data "k".data 50 100)
        "k".data 150 = some ("u1".data, "e@x".data) ↔ (150 : Int) ≤ 100 + 50)
    ∧ (∀ uid' em' t', (100 : Int) ≤ t' →
        verifyToken toyHmac (signToken toyHmac uid' em' "k".data (-1) 100) "k".data t'
          = none) :=
  c3_expiry_boundary toyHmac toyHmac_dot_free "u1".data "e@x".data "k".data 100 50 150
    (by decide) (by decide) (by decide)

/-- C4: for every token that splits into a payload segment and a
signature segment where the signature does not equal the HMAC of the
payload under the verifier's secret, `verifyToken` returns a negative
result — whatever the payload segment contains; the comparison gates all
payload processing. -/
theorem c4_bad_signature_rejected (hmac : List Char → List Char → List Char)
    (token secret payloadB64 sigB64 : List Char) (now : Int)
    (hsplit : splitOnChar '.' token = [payloadB64, sigB64])
    (hne : sigB64 ≠ hmac secret payloadB64) :
    verifyToken hmac token secret now = none := by
  unfold verifyToken
  rw [hsplit]
  by_cases hlen : (utf8Encode sigB64).length = (utf8Encode (hmac secret payloadB64)).length
  · have hbytes : utf8Encode sigB64 ≠ utf8Encode (hmac secret payloadB64) := by
      intro he
      exact hne (utf8Encode_injective he)
    simp [hlen, hbytes]
  · simp [hlen]

/-- C4 witness: a token whose signature segment is not the HMAC of its
payload segment is rejected. -/
theorem c4_bad_signature_rejected_witness :
    verifyToken toyHmac "abc.def".data "k".data 0 = none :=
  c4_bad_signature_rejected toyHmac "abc.def".data "k".data "abc".data "def".data 0
    (by decide) (by decide)

/-- C5, counterexample to the claim as stated: a header with an extra
space-separated part after the token does NOT yield the no-token
outcome; `const [type, token] = header.split(' ')` silently ignores the
third part and extraction succeeds with the second. -/
theorem c5_claim_counterexample :
    getBearerToken (some "Bearer abc def".data) = some "abc".data := by decide

/-- C5 (amended): bearer-token extraction succeeds exactly when the
header's first space-separated segment is the case-sensitive literal
`Bearer` and a non-empty second segment exists; it returns that second
segment, and any further space-separated segments are ignored.  Missing
header, wrong or differently-cased scheme, or a missing/empty token
still yield the no-token outcome. -/
theorem c5_bearer_extraction (h t : List Char) :
    getBearerToken (some h) = some t ↔
      ((splitOnChar ' ' h).headD [] = "Bearer".data ∧
        (splitOnChar ' ' h)[1]? = some t ∧ t ≠ []) := by
  simp only [getBearerToken]
  by_cases hnil : h = []
  · subst hnil
    rw [if_pos rfl]
    constructor
    · intro hc
      exact absurd hc (by simp)
    · intro hc
      exact absurd hc.1 (by decide)
  · rw [if_neg hnil]
    by_cases hb : (splitOnChar ' ' h).headD [] = "Bearer".data
    · by_cases htk : ((splitOnChar ' ' h)[1]?).getD [] = []
      · rw [if_pos (Or.inr htk)]
        constructor
        · intro hc
          exact absurd hc (by simp)
        · intro hc
          obtain ⟨-, h2, h3⟩ := hc
          rw [h2] at htk
          exact absurd htk h3
      · rw [if_neg (by simp only [not_or, ne_eq, not_not]; exact ⟨hb, htk⟩)]
        cases h1 : (splitOnChar ' ' h)[1]? with
        | none =>
          rw [h1] at htk
          exact absurd rfl htk
        | some t' =>
          rw [h1] at htk
          simp only [Option.getD_some, Option.some.injEq] at htk ⊢
          constructor
          · intro he
            exact ⟨hb, he, he ▸ htk⟩
          · intro he
            exact he.2.1
    · rw [if_pos (Or.inl hb)]
      constructor
      · intro hc
        exact absurd hc (by simp)
      · intro hc
        exact absurd hc.1 hb

/-- C6, counterexample to the claim as stated: two requests rejected for
different internal reasons (missing header vs. token that fails
verification) both get status 401, but the exception filter surfaces the
`HttpError` message in the response body (`res.json(\x7b error:
error.message \x7d)`), and the two bodies differ (`Unauthorized` vs.
`Invalid token`), so an external caller CAN distinguish which stage
failed. -/
theorem c6_claim_counterexample :
    (requiredAuthExecute toyHmac (fun _ => (some 0 : Option Nat)) "k".data none 0).1
        = GateOutcome.rejected ⟨401, "Unauthorized".data⟩
    ∧ (requiredAuthExecute toyHmac (fun _ => (some 0 : Option Nat)) "k".data
        (some "Bearer xyz".data) 0).1
        = GateOutcome.rejected ⟨401, "Invalid token".data⟩
    ∧ exceptionFilterCatch ⟨401, "Unauthorized".data⟩
        ≠ exceptionFilterCatch ⟨401, "Invalid token".data⟩ := by
  refine ⟨by decide, by decide, by decide⟩

/-- C6 (amended): every rejection of the required-policy gate carries the
same error kind (`HttpError`) and the same status (401), rendered with
the same response shape (status plus a JSON body with a single `error`
field) — but the body's message is stage-specific (`Unauthorized`,
`Invalid token`, or `User not found`), so the stages are distinguishable
by response body, not by status. -/
theorem c6_rejections_same_status {α : Type}
    (hmac : List Char → List Char → List Char) (users : List Char → Option α)
    (secret : List Char) (header : Option (List Char)) (now : Int) (e : HttpErrorModel)
    (hrej : (requiredAuthExecute hmac users secret header now).1 = GateOutcome.rejected e) :
    (exceptionFilterCatch e).1 = 401 ∧
      (e.message = "Unauthorized".data ∨ e.message = "Invalid token".data ∨
        e.message = "User not found".data) := by
  unfold requiredAuthExecute at hrej
  cases hb : getBearerToken header with
  | none =>
    simp only [hb, GateOutcome.rejected.injEq] at hrej
    subst hrej
    exact ⟨rfl, Or.inl rfl⟩
  | some token =>
    simp only [hb] at hrej
    cases hv : verifyToken hmac token secret now with
    | none =>
      simp only [hv, GateOutcome.rejected.injEq] at hrej
      subst hrej
      exact ⟨rfl, Or.inr (Or.inl rfl)⟩
    | some p =>
      obtain ⟨userId, em⟩ := p
      simp only [hv] at hrej
      cases hu : users userId with
      | none =>
        simp only [hu, GateOutcome.rejected.injEq] at hrej
        subst hrej
        exact ⟨rfl, Or.inr (Or.inr rfl)⟩
      | some u =>
        simp [hu] at hrej

/-- C6 witness: the collapse at a concrete rejected request (no
header). -/
theorem c6_rejections_same_status_witness :
    (exceptionFilterCatch ⟨401, "Unauthorized".data⟩).1 = 401 ∧
      ((⟨401, "Unauthorized".data⟩ : HttpErrorModel).message = "Unauthorized".data ∨
        (⟨401, "Unauthorized".data⟩ : HttpErrorModel).message = "Invalid token".data ∨
        (⟨401, "Unauthorized".data⟩ : HttpErrorModel).message = "User not found".data) :=
  c6_rejections_same_status (α := Nat) toyHmac (fun _ => some 0) "k".data none 0
    ⟨401, "Unauthorized".data⟩ (by decide)

/-- Follows the spec's wire-format words (§6): a payload object whose
first key is `subjectId` (the spec's name for the identity claim),
values shaped as in `parsePayload`.  Used only to compare the spec's
stated wire format against the one the code produces. -/
def keyPrefixSubjectIdSpec : List Char := [lbrace, '"'] ++ "subjectId".data ++ ['"', ':']

/-- Parser for the spec's stated payload profile (`subjectId`, `email`,
`exp`). -/
def parsePayloadSubjectIdSpec (cs : List Char) : Option (List Char × List Char × Int) :=
  match dropPre keyPrefixSubjectIdSpec cs with
  | none => none
  | some cs1 => parsePayloadFields cs1

set_option maxRecDepth 16384 in
/-- C7, counterexample to the claim as stated: decoding the payload
segment of a concretely issued token yields JSON that does NOT parse
under the spec's `subjectId` profile, but does parse under the `userId`
profile — the first key the code writes is `userId`, not `subjectId`. -/
theorem c7_claim_counterexample :
    ((base64urlDecode ((splitOnChar '.' (signToken toyHmac "u1".data "a@b.com".data
        "k".data 3600 1000)).headD [])).bind utf8Decode).bind parsePayloadSubjectIdSpec
      = none
    ∧ ((base64urlDecode ((splitOnChar '.' (signToken toyHmac "u1".data "a@b.com".data
        "k".data 3600 1000)).headD [])).bind utf8Decode).bind parsePayload
      = some ("u1".data, "a@b.com".data, (4600 : Int)) := by
  refine ⟨by decide, by decide⟩

/-- C7 (amended): every issued token consists of exactly two segments
separated by a single `'.'`; base64url-decoding the first segment yields
the UTF-8 bytes of the`JSON.stringify` serialization with keys exactly
`userId`, `email`, `exp` in that order and no whitespace (`exp` an
integer number of seconds since the epoch), and that serialization
parses back to exactly the issued claims. -/
theorem c7_wire_format (hmac : List Char → List Char → List Char)
    (uid em secret : List Char) (ttl now : Int)
    (hsig : '.' ∉ hmac secret (base64urlEncode (utf8Encode (payloadJson uid em (now + ttl))))) :
    splitOnChar '.' (signToken hmac uid em secret ttl now)
        = [base64urlEncode (utf8Encode (payloadJson uid em (now + ttl))),
           hmac secret (base64urlEncode (utf8Encode (payloadJson uid em (now + ttl))))]
    ∧ (base64urlDecode (base64urlEncode (utf8Encode (payloadJson uid em (now + ttl))))).bind
        utf8Decode = some (payloadJson uid em (now + ttl))
    ∧ parsePayload (payloadJson uid em (now + ttl)) = some (uid, em, now + ttl) := by
  refine ⟨?_, ?_, parsePayload_payloadJson uid em (now + ttl)⟩
  · unfold signToken
    exact splitOnChar_pair (dot_not_mem_base64urlEncode _) hsig
  · rw [base64url_roundtrip _ (utf8Encode_lt_256 _)]
    simp [utf8Decode_encode]

set_option maxRecDepth 16384 in
/-- C7 witness: the wire format of a concretely issued token. -/
theorem c7_wire_format_witness :
    splitOnChar '.' (signToken toyHmac "u1".data "a@b.com".data "k".data 3600 1000)
        = [base64urlEncode (utf8Encode (payloadJson "u1".data "a@b.com".data (1000 + 3600))),
           toyHmac "k".data
             (base64urlEncode (utf8Encode (payloadJson "u1".data "a@b.com".data (1000 + 3600))))]
    ∧ (base64urlDecode (base64urlEncode (utf8Encode
          (payloadJson "u1".data "a@b.com".data (1000 + 3600))))).bind utf8Decode
        = some (payloadJson "u1".data "a@b.com".data (1000 + 3600))
    ∧ parsePayload (payloadJson "u1".data "a@b.com".data (1000 + 3600))
        = some ("u1".data, "a@b.com".data, 1000 + 3600) :=
  c7_wire_format toyHmac "u1".data "a@b.com".data "k".data 3600 1000
    (toyHmac_dot_free _ _)

/-- C8: for every derivation function, password and pepper,
`verifyPassword(p, hashPassword(p, s), s)` returns `true`: the
recomputed digest is byte-identical to the stored one (derivation is a
pure function, hence deterministic), so the length check passes and the
byte comparison succeeds. -/
theorem c8_password_roundtrip (scrypt : List Char → List Char → List Nat)
    (password salt : List Char) :
    verifyPassword scrypt password (hashPassword scrypt password salt) salt = true := by
  unfold verifyPassword
  simp

/-- C9: under the required policy, when the Authorization header yields
no bearer token the gate rejects with the 401 `Unauthorized` error and
the user-lookup collaborator is never invoked (the lookup trace is
empty). -/
theorem c9_no_token_rejects_before_lookup {α : Type}
    (hmac : List Char → List Char → List Char) (users : List Char → Option α)
    (secret : List Char) (header : Option (List Char)) (now : Int)
    (hno : getBearerToken header = none) :
    requiredAuthExecute hmac users secret header now
      = (GateOutcome.rejected ⟨401, "Unauthorized".data⟩, []) := by
  unfold requiredAuthExecute
  rw [hno]

/-- C9 witness: a request with no Authorization header. -/
theorem c9_no_token_rejects_before_lookup_witness :
    requiredAuthExecute toyHmac (fun _ => (some 0 : Option Nat)) "k".data none 0
      = (GateOutcome.rejected ⟨401, "Unauthorized".data⟩, []) :=
  c9_no_token_rejects_before_lookup toyHmac (fun _ => (some 0 : Option Nat))
    "k".data none 0 rfl

/-- C10: the optional-policy gate never rejects: its outcome is always
`proceed`, and the attached identity is exactly the result of chaining
the three stages (bearer-token extraction, token verification, user
lookup) — so an identity is attached precisely when all three succeed,
and any failure proceeds with no identity. -/
theorem c10_optional_always_proceeds {α : Type}
    (hmac : List Char → List Char → List Char) (users : List Char → Option α)
    (secret : List Char) (header : Option (List Char)) (now : Int) :
    (optionalAuthExecute hmac users secret header now).1
      = GateOutcome.proceed ((getBearerToken header).bind
          (fun t => (verifyToken hmac t secret now).bind (fun p => users p.1))) := by
  unfold optionalAuthExecute
  cases hb : getBearerToken header with
  | none => simp
  | some token =>
    cases hv : verifyToken hmac token secret now with
    | none => simp [hv]
    | some p =>
      obtain ⟨userId, em⟩ := p
      cases hu : users userId with
      | none => simp [hv, hu]
      | some u => simp [hv, hu]

end SixCities
